import Mathlib

/-!
Shallow embedding of the feynman repository's storage layer (`src/db.rs`)
and data model (`src/models.rs`).

Timestamps: the code stores RFC3339 strings and does arithmetic through
`chrono`; we model an instant as an `Int` count of seconds, and a stored
timestamp string as `TimeStr`: either `valid t` (a string that parses back
to instant `t`; `to_rfc3339` output always round-trips) or `invalid`
(a string `DateTime::parse_from_rfc3339` rejects).  `chrono::Duration::days d`
is `d * 86400` seconds and `Duration::num_days` divides the signed second
count by 86400 truncating toward zero, which is `Int.tdiv`.

SQL tables are lists of rows; an `UPDATE ... WHERE id = ?` maps the row
transformation over every matching row, and an `INSERT` appends.  Counters
live in SQLite (64-bit) and never approach overflow, so they are plain
`Int`.  The selection weights in `get_next_topic` are products of an `i64`
day count and a small integer, computed in `f64`; every value is an exact
small integer, so they are modelled in `Int` (cast to `Rat` where the code
multiplies by the random draw `r : f64` in `[0,1)`).
-/

/-- A stored timestamp string: `valid t` parses back to instant `t`,
`invalid` fails `DateTime::parse_from_rfc3339`. -/
inductive TimeStr
| valid (t : Int)
| invalid
deriving DecidableEq

/-- `models.rs` `ReviewOutcome` (`Success`, `Partial`, `Fail`).  The middle
variant is named `partialCredit` here because `partial` is a Lean keyword. -/
inductive ReviewOutcome
| success
| partialCredit
| fail
deriving DecidableEq

/-- `models.rs` `SessionOutcome` (`success`, `partial`, `fail`, `abandoned`). -/
inductive SessionOutcome
| success
| partialCredit
| fail
| abandoned
deriving DecidableEq

/-- `models.rs` `PlanStatus`. -/
inductive PlanStatus
| interviewing
| specReady
| approved
| inProgress
| complete
| abandoned
deriving DecidableEq

/-- rusqlite errors surfaced by the operations we model.  `notFound` stands
for `rusqlite::Error::QueryReturnedNoRows`, the NotFound error of the spec. -/
inductive DbError
| notFound
deriving DecidableEq

/-- `models.rs` `Progress` (row of the `progress` table).  `skill_level` is
kept as its raw `i32` and `assessment_method` as its stored string; the
claims only need them carried along unchanged. -/
structure Progress where
  id : Int
  topic_id : Int
  mastery_level : Int
  times_reviewed : Int
  times_succeeded : Int
  last_reviewed : Option TimeStr
  next_review : Option TimeStr
  notes : Option String
  skill_level : Int
  assessment_method : String
  last_assessed : Option TimeStr
deriving DecidableEq

/-- Row of the `review_history` table. -/
structure ReviewHistoryEntry where
  topic_id : Int
  outcome : ReviewOutcome
  reviewed_at : Int
  notes : Option String
deriving DecidableEq

/-- `models.rs` `Topic`. -/
structure Topic where
  id : Int
  name : String
  description : Option String
  created_at : Int
  updated_at : Int
  tags : List String
deriving DecidableEq

/-- `models.rs` `TopicWithProgress`. -/
structure TopicWithProgress where
  topic : Topic
  progress : Progress
deriving DecidableEq

/-- `models.rs` `LearningSession` (row of `learning_sessions`). -/
structure LearningSession where
  id : Int
  topic_id : Int
  session_type : String
  started_at : Int
  ended_at : Option Int
  skill_level_at_start : Option Int
  outcome : Option SessionOutcome
  summary : Option String
  notes : Option String
deriving DecidableEq

/-- `models.rs` `SessionGap` (row of `session_gaps`). -/
structure SessionGap where
  id : Int
  session_id : Int
  gap_description : String
  addressed : Bool
deriving DecidableEq

/-- `models.rs` `Plan` (row of `plans`). -/
structure Plan where
  id : Int
  title : String
  initial_description : String
  status : PlanStatus
  engineer_level : Option String
  spec_file_path : Option String
  created_at : Int
  updated_at : Int
deriving DecidableEq

/-- The database state: one list of rows per table the claims touch. -/
structure DbState where
  progress : List Progress
  review_history : List ReviewHistoryEntry
  learning_sessions : List LearningSession
  session_gaps : List SessionGap
  plans : List Plan
deriving DecidableEq

/-- `chrono::Duration::days d` added to an instant: `d` days in seconds. -/
def addDays (t : Int) (d : Int) : Int :=
  t + d * 86400

/-- `chrono::Duration::num_days` of a signed duration given in seconds:
division by 86400 truncating toward zero (`Int.tdiv` is T-division,
matching Rust `i64` division). -/
def num_days (seconds : Int) : Int :=
  Int.tdiv seconds 86400

/-- `Database::get_progress`: `SELECT ... FROM progress WHERE topic_id = ?1`,
`None` when no row matches (`topic_id` is UNIQUE in the schema, so the first
match is the row). -/
def get_progress (s : DbState) (topic_id : Int) : Option Progress :=
  s.progress.find? (fun p => p.topic_id == topic_id)

/-- `Database::calculate_interval`: spaced-repetition interval in days by
mastery level, the catch-all arm giving 30. -/
def calculate_interval (mastery_level : Int) : Int :=
  if mastery_level = 0 then 1
  else if mastery_level = 1 then 2
  else if mastery_level = 2 then 4
  else if mastery_level = 3 then 7
  else if mastery_level = 4 then 14
  else if mastery_level = 5 then 30
  else 30

/-- The `match outcome` block of `Database::record_review`: given the fetched
row's `mastery_level`, the pair `(new_mastery, days_until_next)`.
Rust `i32` division `/ 2` truncates toward zero, hence `Int.tdiv`. -/
def reviewOutcomeParams (mastery_level : Int) (outcome : ReviewOutcome) : Int × Int :=
  match outcome with
  | ReviewOutcome.success =>
    let new_level := min (mastery_level + 1) 5
    (new_level, calculate_interval new_level)
  | ReviewOutcome.partialCredit =>
    let new_level := mastery_level
    let days := Int.tdiv (calculate_interval new_level) 2
    (new_level, max days 1)
  | ReviewOutcome.fail =>
    (max (mastery_level - 1) 0, 1)

/-- The row transformation of the `UPDATE progress SET ...` statement in
`Database::record_review`, applied to each row matching the `WHERE` clause:
`times_reviewed = times_reviewed + 1` is computed per row by SQLite, the
other values are bound parameters; `notes = COALESCE(?5, notes)` keeps the
old notes exactly when the parameter is SQL NULL (`None`). -/
def reviewUpdateRow (new_mastery : Int) (times_succeeded : Int) (now : Int)
    (next_review : Int) (notes : Option String) (q : Progress) : Progress :=
  { q with
    mastery_level := new_mastery
    times_reviewed := q.times_reviewed + 1
    times_succeeded := times_succeeded
    last_reviewed := some (TimeStr.valid now)
    next_review := some (TimeStr.valid next_review)
    notes := match notes with | some v => some v | none => q.notes }

/-- `Database::record_review`: first `INSERT INTO review_history`, then fetch
the progress row (`QueryReturnedNoRows`, i.e. NotFound, when absent), then
compute the new mastery and interval and run the `UPDATE`.  `now` is the
single `Utc::now()` taken at the top of the function. -/
def record_review (s : DbState) (topic_id : Int) (outcome : ReviewOutcome)
    (notes : Option String) (now : Int) : DbState × Option DbError :=
  let s1 : DbState :=
    { s with review_history :=
        s.review_history ++
          [{ topic_id := topic_id, outcome := outcome, reviewed_at := now, notes := notes }] }
  match get_progress s1 topic_id with
  | none => (s1, some DbError.notFound)
  | some progress =>
    let nm_days := reviewOutcomeParams progress.mastery_level outcome
    let next_review := addDays now nm_days.2
    let times_succeeded :=
      if outcome = ReviewOutcome.success then progress.times_succeeded + 1
      else progress.times_succeeded
    let s2 : DbState :=
      { s1 with progress := s1.progress.map (fun q =>
          if q.topic_id == topic_id then
            reviewUpdateRow nm_days.1 times_succeeded now next_review notes q
          else q) }
    (s2, none)

/-- The effect of one `record_review` call on the (unique) matching progress
row itself: the `UPDATE` transformation with the parameters computed from
that same row. -/
def reviewRowStep (p : Progress) (outcome : ReviewOutcome) (notes : Option String)
    (now : Int) : Progress :=
  let nm_days := reviewOutcomeParams p.mastery_level outcome
  reviewUpdateRow nm_days.1
    (if outcome = ReviewOutcome.success then p.times_succeeded + 1 else p.times_succeeded)
    now (addDays now nm_days.2) notes p

/-- The progress row `Database::add_topic` creates: `INSERT INTO progress
(topic_id) VALUES (?1)` with the schema defaults — mastery 0, counters 0,
`last_reviewed` NULL, `next_review` now, `notes` NULL, skill 0,
`assessment_method` 'none'. -/
def initial_progress (id topic_id now : Int) : Progress :=
  { id := id
    topic_id := topic_id
    mastery_level := 0
    times_reviewed := 0
    times_succeeded := 0
    last_reviewed := none
    next_review := some (TimeStr.valid now)
    notes := none
    skill_level := 0
    assessment_method := "none"
    last_assessed := none }

/-- The database right after a fresh topic is added: a single progress row
with the schema defaults and empty other tables. -/
def freshState (id topic_id now : Int) : DbState :=
  { progress := [initial_progress id topic_id now]
    review_history := []
    learning_sessions := []
    session_gaps := []
    plans := [] }

/-- One review call: target topic, outcome, optional notes, the call's
`Utc::now()`. -/
structure ReviewCall where
  topic_id : Int
  outcome : ReviewOutcome
  notes : Option String
  now : Int

/-- A finite sequence of `record_review` calls, threading the state
(each call's `Result` is dropped, as the CLI does between commands). -/
def record_review_seq (s : DbState) (calls : List ReviewCall) : DbState :=
  calls.foldl (fun st c => (record_review st c.topic_id c.outcome c.notes c.now).1) s

/-- `Database::end_session`: `UPDATE learning_sessions SET ended_at, outcome,
summary, notes WHERE id = ?5`, then `Ok(())` — the affected-row count is
never inspected. -/
def end_session (s : DbState) (session_id : Int) (outcome : SessionOutcome)
    (summary notes : Option String) (now : Int) : DbState × Option DbError :=
  ({ s with learning_sessions := s.learning_sessions.map (fun ls =>
      if ls.id == session_id then
        { ls with ended_at := some now, outcome := some outcome,
                  summary := summary, notes := notes }
      else ls) }, none)

/-- `Database::mark_gap_addressed`: `UPDATE session_gaps SET addressed = 1
WHERE id = ?1`, then `Ok(())`. -/
def mark_gap_addressed (s : DbState) (gap_id : Int) : DbState × Option DbError :=
  ({ s with session_gaps := s.session_gaps.map (fun g =>
      if g.id == gap_id then { g with addressed := true } else g) }, none)

/-- `Database::update_plan_status`: `UPDATE plans SET status = ?1,
updated_at = ?2 WHERE id = ?3`, then `Ok(())`. -/
def update_plan_status (s : DbState) (plan_id : Int) (status : PlanStatus)
    (now : Int) : DbState × Option DbError :=
  ({ s with plans := s.plans.map (fun pl =>
      if pl.id == plan_id then { pl with status := status, updated_at := now }
      else pl) }, none)

/-- `Database::update_plan_spec_path`: `UPDATE plans SET spec_file_path = ?1,
status = 'spec_ready', updated_at = ?2 WHERE id = ?3`, then `Ok(())`. -/
def update_plan_spec_path (s : DbState) (plan_id : Int) (path : String)
    (now : Int) : DbState × Option DbError :=
  ({ s with plans := s.plans.map (fun pl =>
      if pl.id == plan_id then
        { pl with spec_file_path := some path, status := PlanStatus.specReady,
                  updated_at := now }
      else pl) }, none)

/-- The overdue factor of one candidate in `Database::get_next_topic`:
`diff.num_days().max(0) + 1` when `next_review` is present and parses,
1 when it is NULL or `parse_from_rfc3339` fails. -/
def overdue_days (now : Int) (next_review : Option TimeStr) : Int :=
  match next_review with
  | some (TimeStr.valid t) => max (num_days (now - t)) 0 + 1
  | some TimeStr.invalid => 1
  | none => 1

/-- The selection weight of one candidate in `Database::get_next_topic`:
`overdue_days * (6 - mastery_level)`.  The code computes this in `f64`,
but both factors are exact integers, so the product is, too. -/
def topic_weight (now : Int) (t : TopicWithProgress) : Int :=
  overdue_days now t.progress.next_review * (6 - t.progress.mastery_level)

/-- The scan loop of `Database::get_next_topic`: subtract each weight from
the running `random_point` and return the index of the first candidate at
which it is `<= 0`; `none` when the loop exhausts the list. -/
def select_scan (weights : List Rat) (random_point : Rat) : Option Nat :=
  match weights with
  | [] => none
  | w :: ws =>
    if random_point - w ≤ 0 then some 0
    else (select_scan ws (random_point - w)).map (· + 1)

/-- `Database::get_next_topic` given the candidate list produced by
`get_due_topics` (topics joined with progress, optionally tag-filtered,
in query order): empty list returns `none`; otherwise draw `r` in `[0,1)`,
scan with `random_point = r * total_weight`, index into the list on a hit,
and fall back to the first candidate when the scan exhausts. -/
def get_next_topic (candidates : List TopicWithProgress) (now : Int) (r : Rat) :
    Option TopicWithProgress :=
  if candidates.isEmpty then none
  else
    let weights := candidates.map (fun t => ((topic_weight now t : Int) : Rat))
    let total_weight : Rat := weights.sum
    match select_scan weights (r * total_weight) with
    | some i => candidates.get? i
    | none => candidates.head?

/-- `Progress::success_rate` (`models.rs`): guarded percentage.  The `f64`
arithmetic is modelled in `Rat`; the claims about it concern only the guard
and the algebraic value. -/
def success_rate (p : Progress) : Rat :=
  if p.times_reviewed = 0 then 0
  else ((p.times_succeeded : Rat) / (p.times_reviewed : Rat)) * 100

/-- The empty database (after `init`, before any insert). -/
def emptyDb : DbState :=
  { progress := [], review_history := [], learning_sessions := [], session_gaps := [], plans := [] }

/-- A sample progress row used to instantiate theorems. -/
def sampleProgress : Progress :=
  { id := 1
    topic_id := 1
    mastery_level := 2
    times_reviewed := 3
    times_succeeded := 2
    last_reviewed := none
    next_review := some (TimeStr.valid 0)
    notes := some "old"
    skill_level := 0
    assessment_method := "none"
    last_assessed := none }

/-- A database holding just `sampleProgress`. -/
def sampleDb : DbState :=
  { progress := [sampleProgress], review_history := [], learning_sessions := [],
    session_gaps := [], plans := [] }

/-- `find?` commutes with a map that does not change the predicate. -/
theorem find?_map_of_pred {α : Type} (f : α → α) (pred : α → Bool)
    (h : ∀ x, pred (f x) = pred x) :
    ∀ l : List α, (l.map f).find? pred = (l.find? pred).map f := by
  intro l
  induction l with
  | nil => rfl
  | cons a t ih =>
    simp only [List.map_cons, List.find?_cons]
    rw [h a]
    cases hp : pred a <;> simp [ih]

/-- After a successful `record_review` call, the progress row fetched for the
topic is the old row transformed by the review update with parameters
computed from that same old row. -/
theorem get_progress_record_review (s : DbState) (topic_id : Int)
    (outcome : ReviewOutcome) (notes : Option String) (now : Int) (p : Progress)
    (h : get_progress s topic_id = some p) :
    get_progress (record_review s topic_id outcome notes now).1 topic_id =
      some (reviewRowStep p outcome notes now) := by
  have hfind0 : s.progress.find? (fun q => q.topic_id == topic_id) = some p := h
  have hpred : (p.topic_id == topic_id) = true := by
    have := List.find?_some hfind0
    simpa using this
  have hinv : ∀ q : Progress,
      (fun q : Progress => q.topic_id == topic_id)
        (if q.topic_id == topic_id then
          reviewUpdateRow (reviewOutcomeParams p.mastery_level outcome).1
            (if outcome = ReviewOutcome.success then p.times_succeeded + 1
             else p.times_succeeded)
            now (addDays now (reviewOutcomeParams p.mastery_level outcome).2) notes q
         else q) =
        (fun q : Progress => q.topic_id == topic_id) q := by
    intro q
    by_cases hq : q.topic_id == topic_id <;> simp [hq, reviewUpdateRow]
  simp only [record_review, get_progress] at *
  rw [h]
  simp only []
  rw [find?_map_of_pred _ _ hinv s.progress, h]
  have hpeq : p.topic_id = topic_id := by simpa using hpred
  simp [hpeq, reviewRowStep]

/-- C1: for a topic whose progress row exists with mastery `m`,
`record_review` with Success sets mastery to `min (m+1) 5`, increments
`times_succeeded`, and sets `next_review` to the review time plus
`table[new mastery]` days; with Partial it keeps mastery `m` and adds
`max 1 (table[m] / 2)` days (floor division); with Fail it sets mastery to
`max (m-1) 0` and adds 1 day; in every case `times_reviewed` increments and
`last_reviewed` becomes the review time; the table is
0 ↦ 1, 1 ↦ 2, 2 ↦ 4, 3 ↦ 7, 4 ↦ 14, 5 ↦ 30 with every level above 5
reading 30. -/
theorem record_review_spec_C1 (s : DbState) (topic_id : Int)
    (notes : Option String) (now : Int) (p : Progress)
    (h : get_progress s topic_id = some p) :
    (∃ q, get_progress (record_review s topic_id ReviewOutcome.success notes now).1 topic_id = some q ∧
       q.mastery_level = min (p.mastery_level + 1) 5 ∧
       q.times_succeeded = p.times_succeeded + 1 ∧
       q.times_reviewed = p.times_reviewed + 1 ∧
       q.last_reviewed = some (TimeStr.valid now) ∧
       q.next_review = some (TimeStr.valid
         (addDays now (calculate_interval (min (p.mastery_level + 1) 5))))) ∧
    (∃ q, get_progress (record_review s topic_id ReviewOutcome.partialCredit notes now).1 topic_id = some q ∧
       q.mastery_level = p.mastery_level ∧
       q.times_succeeded = p.times_succeeded ∧
       q.times_reviewed = p.times_reviewed + 1 ∧
       q.last_reviewed = some (TimeStr.valid now) ∧
       q.next_review = some (TimeStr.valid
         (addDays now (max 1 (Int.tdiv (calculate_interval p.mastery_level) 2))))) ∧
    (∃ q, get_progress (record_review s topic_id ReviewOutcome.fail notes now).1 topic_id = some q ∧
       q.mastery_level = max (p.mastery_level - 1) 0 ∧
       q.times_succeeded = p.times_succeeded ∧
       q.times_reviewed = p.times_reviewed + 1 ∧
       q.last_reviewed = some (TimeStr.valid now) ∧
       q.next_review = some (TimeStr.valid (addDays now 1))) ∧
    (calculate_interval 0 = 1 ∧ calculate_interval 1 = 2 ∧ calculate_interval 2 = 4 ∧
     calculate_interval 3 = 7 ∧ calculate_interval 4 = 14 ∧ calculate_interval 5 = 30 ∧
     ∀ m : Int, 5 < m → calculate_interval m = 30) := by
  refine ⟨?_, ?_, ?_, ?_⟩
  · exact ⟨_, get_progress_record_review s topic_id ReviewOutcome.success notes now p h,
      by simp [reviewRowStep, reviewUpdateRow, reviewOutcomeParams]⟩
  · exact ⟨_, get_progress_record_review s topic_id ReviewOutcome.partialCredit notes now p h,
      by simp [reviewRowStep, reviewUpdateRow, reviewOutcomeParams, max_comm]⟩
  · exact ⟨_, get_progress_record_review s topic_id ReviewOutcome.fail notes now p h,
      by simp [reviewRowStep, reviewUpdateRow, reviewOutcomeParams]⟩
  · refine ⟨rfl, rfl, rfl, rfl, rfl, rfl, ?_⟩
    intro m hm
    unfold calculate_interval
    split_ifs <;> omega

/-- Witness for C1: the success case applied to `sampleDb`. -/
theorem record_review_spec_C1_witness :
    ∃ q, get_progress (record_review sampleDb 1 ReviewOutcome.success none 0).1 1 = some q ∧
      q.mastery_level = min (sampleProgress.mastery_level + 1) 5 ∧
      q.times_succeeded = sampleProgress.times_succeeded + 1 ∧
      q.times_reviewed = sampleProgress.times_reviewed + 1 ∧
      q.last_reviewed = some (TimeStr.valid 0) ∧
      q.next_review = some (TimeStr.valid
        (addDays 0 (calculate_interval (min (sampleProgress.mastery_level + 1) 5)))) :=
  (record_review_spec_C1 sampleDb 1 none 0 sampleProgress (by decide)).1

/-- The invariant of claim C2 on a progress row. -/
def progressInv (p : Progress) : Prop :=
  0 ≤ p.mastery_level ∧ p.mastery_level ≤ 5 ∧ p.times_succeeded ≤ p.times_reviewed

/-- One review update preserves the C2 invariant. -/
theorem reviewRowStep_inv (p : Progress) (o : ReviewOutcome) (n : Option String)
    (now : Int) (h : progressInv p) : progressInv (reviewRowStep p o n now) := by
  obtain ⟨h0, h5, hsr⟩ := h
  cases o <;>
    · simp only [progressInv, reviewRowStep, reviewUpdateRow, reviewOutcomeParams]
      refine ⟨?_, ?_, ?_⟩ <;> (try simp) <;> omega

/-- On a database whose progress table is the single row `p`, one
`record_review` call leaves the progress table a single row: `p` reviewed
when the call targets `p`'s topic, `p` untouched otherwise. -/
theorem record_review_singleton (s : DbState) (p : Progress) (tid : Int)
    (o : ReviewOutcome) (n : Option String) (now : Int)
    (hs : s.progress = [p]) :
    (record_review s tid o n now).1.progress =
      [if p.topic_id == tid then reviewRowStep p o n now else p] := by
  cases hb : p.topic_id == tid
  · have hne : ¬ p.topic_id = tid := by simpa using hb
    simp [record_review, get_progress, hs, List.find?, hb, hne]
  · have hpeq : p.topic_id = tid := by simpa using hb
    simp [record_review, get_progress, hs, List.find?, hb, hpeq, reviewRowStep]

/-- A sequence of reviews on a single-row progress table keeps it a single
row satisfying the C2 invariant. -/
theorem record_review_seq_singleton (calls : List ReviewCall) :
    ∀ s : DbState, ∀ p : Progress, s.progress = [p] → progressInv p →
      ∃ q, (record_review_seq s calls).progress = [q] ∧ progressInv q := by
  induction calls with
  | nil => exact fun s p hs hp => ⟨p, hs, hp⟩
  | cons c rest ih =>
    intro s p hs hp
    have hstep := record_review_singleton s p c.topic_id c.outcome c.notes c.now hs
    refine ih (record_review s c.topic_id c.outcome c.notes c.now).1 _ hstep ?_
    cases hb : p.topic_id == c.topic_id
    · simpa [hb] using hp
    · simpa [hb] using reviewRowStep_inv p c.outcome c.notes c.now hp

/-- C2: starting from the progress row a fresh topic gets (mastery 0,
counters 0), after any finite sequence of `record_review` calls the mastery
level stays within `[0, 5]` and `times_succeeded ≤ times_reviewed`. -/
theorem record_review_seq_invariant_C2 (id tid t0 : Int) (calls : List ReviewCall) :
    ∀ p ∈ (record_review_seq (freshState id tid t0) calls).progress,
      0 ≤ p.mastery_level ∧ p.mastery_level ≤ 5 ∧
        p.times_succeeded ≤ p.times_reviewed := by
  obtain ⟨q, hq, hinv⟩ :=
    record_review_seq_singleton calls (freshState id tid t0)
      (initial_progress id tid t0) rfl
      (by refine ⟨?_, ?_, ?_⟩ <;> simp [initial_progress])
  intro p hp
  rw [hq] at hp
  simp only [List.mem_singleton] at hp
  subst hp
  exact hinv

/-- The progress row after one successful review of a fresh topic. -/
def wRow : Progress :=
  { id := 7
    topic_id := 1
    mastery_level := 1
    times_reviewed := 1
    times_succeeded := 1
    last_reviewed := some (TimeStr.valid 0)
    next_review := some (TimeStr.valid 172800)
    notes := none
    skill_level := 0
    assessment_method := "none"
    last_assessed := none }

/-- Witness for C2: one successful review on a fresh topic. -/
theorem record_review_seq_invariant_C2_witness :
    0 ≤ wRow.mastery_level ∧ wRow.mastery_level ≤ 5 ∧
      wRow.times_succeeded ≤ wRow.times_reviewed :=
  record_review_seq_invariant_C2 7 1 0
    [{ topic_id := 1, outcome := ReviewOutcome.success, notes := none, now := 0 }]
    wRow (by decide)

/-- A hit of the scan loop is a valid index into the weight list. -/
theorem select_scan_lt_length (weights : List Rat) (rp : Rat) (i : Nat)
    (h : select_scan weights rp = some i) : i < weights.length := by
  induction weights generalizing rp i with
  | nil => simp [select_scan] at h
  | cons w ws ih =>
    simp only [select_scan] at h
    split at h
    · cases h
      simp
    · obtain ⟨j, hj, hji⟩ := Option.map_eq_some'.mp h
      subst hji
      simpa using ih _ _ hj

/-- C3: `get_next_topic` returns nothing exactly on an empty candidate list;
any value it returns is one of the candidates; and on a singleton candidate
list it returns that candidate for every random draw, regardless of its
weight. -/
theorem get_next_topic_total_C3 (candidates : List TopicWithProgress)
    (now : Int) (r : Rat) :
    (get_next_topic candidates now r = none ↔ candidates = []) ∧
    (∀ t, get_next_topic candidates now r = some t → t ∈ candidates) ∧
    (∀ t, get_next_topic [t] now r = some t) := by
  refine ⟨?_, ?_, ?_⟩
  · cases candidates with
    | nil => simp [get_next_topic]
    | cons a l =>
      simp only [get_next_topic, List.isEmpty_cons, if_false, Bool.false_eq_true]
      constructor
      · intro h
        exfalso
        rcases hsc : select_scan ((a :: l).map fun t => ((topic_weight now t : Int) : Rat))
            (r * ((a :: l).map fun t => ((topic_weight now t : Int) : Rat)).sum) with _ | i
        · rw [hsc] at h
          simp at h
        · rw [hsc] at h
          simp only [] at h
          have hlt := select_scan_lt_length _ _ _ hsc
          rw [List.length_map] at hlt
          rw [List.get?_eq_none] at h
          omega
      · intro h
        cases h
  · intro t h
    cases candidates with
    | nil => simp [get_next_topic] at h
    | cons a l =>
      simp only [get_next_topic, List.isEmpty_cons, if_false, Bool.false_eq_true] at h
      rcases hsc : select_scan ((a :: l).map fun t => ((topic_weight now t : Int) : Rat))
          (r * ((a :: l).map fun t => ((topic_weight now t : Int) : Rat)).sum) with _ | i
      · rw [hsc] at h
        simp only [List.head?_cons] at h
        cases h
        simp
      · rw [hsc] at h
        exact List.get?_mem h
  · intro t
    simp only [get_next_topic, List.isEmpty_cons, if_false, Bool.false_eq_true,
      List.map_cons, List.map_nil, select_scan]
    split_ifs <;> rfl

/-- C4: the selection weight `get_next_topic` assigns to a candidate is
`(max 0 overdue_days + 1) * (6 - mastery_level)` when `next_review` is
present and parses, and a missing or unparseable `next_review` contributes
an overdue factor of exactly 1. -/
theorem topic_weight_formula_C4 (now : Int) (t : TopicWithProgress) :
    (∀ tm, t.progress.next_review = some (TimeStr.valid tm) →
        topic_weight now t =
          (max 0 (num_days (now - tm)) + 1) * (6 - t.progress.mastery_level)) ∧
    (t.progress.next_review = none →
        topic_weight now t = 1 * (6 - t.progress.mastery_level)) ∧
    (t.progress.next_review = some TimeStr.invalid →
        topic_weight now t = 1 * (6 - t.progress.mastery_level)) := by
  refine ⟨fun tm htm => ?_, fun h => ?_, fun h => ?_⟩ <;>
    simp [topic_weight, overdue_days, *, max_comm]

/-- C5 counterexample: on a row whose notes are `some "old"`, calling
`record_review` with the empty string as notes replaces the stored notes
with the empty string — `COALESCE(?5, notes)` keeps the old value only for
SQL NULL, not for a supplied empty value. -/
theorem record_review_notes_C5_counterexample :
    (get_progress (record_review sampleDb 1 ReviewOutcome.success (some "") 0).1 1).map
        Progress.notes = some (some "") ∧
    sampleProgress.notes = some "old" ∧
    (some (some "") : Option (Option String)) ≠ some (some "old") := by
  refine ⟨?_, rfl, by simp⟩
  decide

/-- C5 amended: `record_review` replaces the progress notes exactly when the
caller supplied a value — any value, the empty string included — and retains
the previous notes only when the caller supplied none. -/
theorem record_review_notes_C5 (s : DbState) (topic_id : Int)
    (outcome : ReviewOutcome) (now : Int) (p : Progress)
    (h : get_progress s topic_id = some p) :
    (∀ v, (get_progress (record_review s topic_id outcome (some v) now).1 topic_id).map
        Progress.notes = some (some v)) ∧
    ((get_progress (record_review s topic_id outcome none now).1 topic_id).map
        Progress.notes = some p.notes) := by
  constructor
  · intro v
    rw [get_progress_record_review s topic_id outcome (some v) now p h]
    simp [reviewRowStep, reviewUpdateRow]
  · rw [get_progress_record_review s topic_id outcome none now p h]
    simp [reviewRowStep, reviewUpdateRow]

/-- Witness for the amended C5 at a concrete database. -/
theorem record_review_notes_C5_witness :
    (∀ v, (get_progress (record_review sampleDb 1 ReviewOutcome.fail (some v) 0).1 1).map
        Progress.notes = some (some v)) ∧
    ((get_progress (record_review sampleDb 1 ReviewOutcome.fail none 0).1 1).map
        Progress.notes = some sampleProgress.notes) :=
  record_review_notes_C5 sampleDb 1 ReviewOutcome.fail 0 sampleProgress (by decide)

/-- C6: `record_review` appends the history entry before touching the
progress row — the new history is always the old history plus the one entry,
and when the progress row is missing the call fails with NotFound while the
history entry is in place. -/
theorem record_review_history_first_C6 (s : DbState) (topic_id : Int)
    (outcome : ReviewOutcome) (notes : Option String) (now : Int) :
    ((record_review s topic_id outcome notes now).1.review_history =
       s.review_history ++
         [{ topic_id := topic_id, outcome := outcome, reviewed_at := now,
            notes := notes }]) ∧
    (get_progress s topic_id = none →
       (record_review s topic_id outcome notes now).2 = some DbError.notFound) := by
  cases h : s.progress.find? (fun q => q.topic_id == topic_id) with
  | none =>
    constructor
    · simp [record_review, get_progress, h]
    · intro _
      simp [record_review, get_progress, h]
  | some p =>
    constructor
    · simp [record_review, get_progress, h]
    · intro hn
      rw [show get_progress s topic_id =
        s.progress.find? (fun q => q.topic_id == topic_id) from rfl, h] at hn
      cases hn

/-- C7 counterexample: on the empty database, ending a nonexistent session,
marking a nonexistent gap addressed, and setting the status of a nonexistent
plan all report success (`Ok(())`, error component `none`) instead of a
NotFound error — the affected-row count of the `UPDATE` is never checked. -/
theorem missing_id_updates_C7_counterexample :
    (end_session emptyDb 1 SessionOutcome.abandoned none none 0).2 = none ∧
    (mark_gap_addressed emptyDb 1).2 = none ∧
    (update_plan_status emptyDb 1 PlanStatus.approved 0).2 = none ∧
    (none : Option DbError) ≠ some DbError.notFound := by
  refine ⟨rfl, rfl, rfl, by simp⟩

/-- C7 amended: `end_session`, `mark_gap_addressed` and `update_plan_status`
on an id that matches no row leave the database unchanged and still report
success; they never surface NotFound. -/
theorem missing_id_updates_C7 (s : DbState) (i : Int) (o : SessionOutcome)
    (su no : Option String) (now : Int) (st : PlanStatus)
    (hs : ∀ ls ∈ s.learning_sessions, ls.id ≠ i)
    (hg : ∀ g ∈ s.session_gaps, g.id ≠ i)
    (hp : ∀ pl ∈ s.plans, pl.id ≠ i) :
    end_session s i o su no now = (s, none) ∧
    mark_gap_addressed s i = (s, none) ∧
    update_plan_status s i st now = (s, none) := by
  refine ⟨?_, ?_, ?_⟩
  · have h : s.learning_sessions.map (fun ls =>
        if ls.id == i then
          { ls with ended_at := some now, outcome := some o, summary := su, notes := no }
        else ls) = s.learning_sessions := by
      conv_rhs => rw [← List.map_id s.learning_sessions]
      exact List.map_congr_left fun x hx => by simp [hs x hx]
    unfold end_session
    rw [h]
  · have h : s.session_gaps.map (fun g =>
        if g.id == i then { g with addressed := true } else g) = s.session_gaps := by
      conv_rhs => rw [← List.map_id s.session_gaps]
      exact List.map_congr_left fun x hx => by simp [hg x hx]
    unfold mark_gap_addressed
    rw [h]
  · have h : s.plans.map (fun pl =>
        if pl.id == i then { pl with status := st, updated_at := now } else pl) = s.plans := by
      conv_rhs => rw [← List.map_id s.plans]
      exact List.map_congr_left fun x hx => by simp [hp x hx]
    unfold update_plan_status
    rw [h]

/-- Witness for the amended C7 on the empty database. -/
theorem missing_id_updates_C7_witness :
    end_session emptyDb 1 SessionOutcome.abandoned none none 0 = (emptyDb, none) ∧
    mark_gap_addressed emptyDb 1 = (emptyDb, none) ∧
    update_plan_status emptyDb 1 PlanStatus.approved 0 = (emptyDb, none) :=
  missing_id_updates_C7 emptyDb 1 SessionOutcome.abandoned none none 0
    PlanStatus.approved (by simp [emptyDb]) (by simp [emptyDb]) (by simp [emptyDb])

/-- C8: `update_plan_spec_path` on an existing plan of any status sets
`spec_file_path` to the given path, forces the status to SpecReady, and
stamps `updated_at` with the call's time. -/
theorem update_plan_spec_path_C8 (s : DbState) (plan_id : Int) (path : String)
    (now : Int) (pl : Plan) (hmem : pl ∈ s.plans) (hid : pl.id = plan_id) :
    { pl with spec_file_path := some path, status := PlanStatus.specReady,
              updated_at := now }
      ∈ (update_plan_spec_path s plan_id path now).1.plans := by
  have h := List.mem_map_of_mem (f := fun q : Plan =>
    if q.id == plan_id then
      { q with spec_file_path := some path, status := PlanStatus.specReady,
               updated_at := now }
    else q) hmem
  simpa [update_plan_spec_path, hid] using h

/-- A sample plan in Complete status, to instantiate C8. -/
def samplePlan : Plan :=
  { id := 1
    title := "t"
    initial_description := "d"
    status := PlanStatus.complete
    engineer_level := none
    spec_file_path := none
    created_at := 0
    updated_at := 0 }

/-- A database holding just `samplePlan`. -/
def samplePlanDb : DbState :=
  { progress := [], review_history := [], learning_sessions := [],
    session_gaps := [], plans := [samplePlan] }

/-- Witness for C8: attaching a spec path to a Complete plan. -/
theorem update_plan_spec_path_C8_witness :
    { samplePlan with spec_file_path := some "plan.md",
                      status := PlanStatus.specReady, updated_at := 5 }
      ∈ (update_plan_spec_path samplePlanDb 1 "plan.md" 5).1.plans :=
  update_plan_spec_path_C8 samplePlanDb 1 "plan.md" 5 samplePlan
    (by simp [samplePlanDb]) rfl

/-- C9: `end_session` mutates only the `learning_sessions` table — for every
session id and outcome the progress rows, the review history, the session
gaps and the plans are all left unchanged. -/
theorem end_session_frame_C9 (s : DbState) (session_id : Int)
    (outcome : SessionOutcome) (summary notes : Option String) (now : Int) :
    ((end_session s session_id outcome summary notes now).1.progress = s.progress) ∧
    ((end_session s session_id outcome summary notes now).1.review_history =
       s.review_history) ∧
    ((end_session s session_id outcome summary notes now).1.session_gaps =
       s.session_gaps) ∧
    ((end_session s session_id outcome summary notes now).1.plans = s.plans) :=
  ⟨rfl, rfl, rfl, rfl⟩

/-- C10: `success_rate` is total with a guarded division — it returns 0 when
`times_reviewed` is 0, and otherwise the divisor is nonzero and the value is
exactly `times_succeeded / times_reviewed * 100`. -/
theorem success_rate_guarded_C10 (p : Progress) :
    (p.times_reviewed = 0 → success_rate p = 0) ∧
    (p.times_reviewed ≠ 0 →
      ((p.times_reviewed : Rat) ≠ 0 ∧
       success_rate p * (p.times_reviewed : Rat) = (p.times_succeeded : Rat) * 100)) := by
  constructor
  · intro h
    simp [success_rate, h]
  · intro h
    have hq : (p.times_reviewed : Rat) ≠ 0 := by exact_mod_cast h
    refine ⟨hq, ?_⟩
    rw [success_rate, if_neg h]
    field_simp
